import Mathlib

/-!
Shallow embedding of the RGSS script-editor bundle codec
(`scripts_controller` module and its directory utilities).

The embedding models:
  * the zlib and Ruby-marshal library primitives by their contracts
    (complete, independently invertible encodings of the payloads the
    repository writes);
  * the file system as an association list of paths to file data plus a
    directory set and a chronological write log, so that ordering claims
    (backup before overwrite) and file-count claims are expressible;
  * JavaScript string primitives (`toString`, `padStart`, `trim`,
    `includes`, `replace` with a character-class regex, and the
    backtracking semantics of the `DEFORMAT_SCRIPT_NAME` regex) as
    executable Lean functions over `List Char`.
-/

/-- Compressed bytes produced by `zlib.deflateSync` at
`Z_BEST_COMPRESSION` with `Z_FINISH`: every call yields a complete,
independently inflatable block, so the codec is modelled by its contract
as an invertible wrapper around the source text. -/
structure Zlib where
  data : String
deriving DecidableEq, Repr

/-- `zlib.deflateSync(code, { level: Z_BEST_COMPRESSION, finishFlush: Z_FINISH })`. -/
def deflateSync (code : String) : Zlib :=
  ⟨code⟩

/-- `zlib.inflateSync(bytes).toString('utf8')`. -/
def inflateSync (z : Zlib) : String :=
  z.data

/-- One marshalled triple `[section, name-bytes, compressed-code]` as it
sits inside the bundle file.  The name is stored by the marshal library
as the UTF-8 bytes of the string the repository wrote; the byte string
is identified with that string. -/
structure RawEntry where
  «section» : Nat
  name : String
  code : Zlib
deriving DecidableEq, Repr

/-- The bundle file's binary contents: `marshal.dump` of the array of
triples.  The marshal library (`@hyrious/marshal`) is modelled by its
contract: `load` inverts `dump` for the arrays the repository writes. -/
structure Marshalled where
  data : List RawEntry
deriving DecidableEq, Repr

/-- `marshal.dump(bundle, { hashStringKeysToSymbol: true })`. -/
def marshalDump (bundle : List RawEntry) : Marshalled :=
  ⟨bundle⟩

/-- `marshal.load(bundleContents, { string: 'binary' })`. -/
def marshalLoad (m : Marshalled) : List RawEntry :=
  m.data

/-- `new TextDecoder('utf8').decode` applied to the marshalled name
bytes; since the bytes are identified with the string they encode, the
decode step is the identity. -/
def textDecode (bytes : String) : String :=
  bytes

/-- A decoded script entry: `output[i][0]`, `output[i][1]`, `output[i][2]`
of `readBundleFile` (section, display name, decompressed code). -/
structure ScriptEntry where
  «section» : Nat
  name : String
  code : String
deriving DecidableEq, Repr, Inhabited

/-- `SCRIPTS_NOT_EXTRACTED = 100`. -/
def SCRIPTS_NOT_EXTRACTED : Nat := 100

/-- `SCRIPTS_EXTRACTED = 200`. -/
def SCRIPTS_EXTRACTED : Nat := 200

/-- `LOADER_BUNDLE_CREATED = 300`. -/
def LOADER_BUNDLE_CREATED : Nat := 300

/-- `BUNDLE_CREATED = 400`. -/
def BUNDLE_CREATED : Nat := 400

/-- `LOADER_SCRIPT_SECTION = 133_769_420`. -/
def LOADER_SCRIPT_SECTION : Nat := 133769420

/-- `LOADER_SCRIPT_NAME = 'RGSS Script Editor Loader'`. -/
def LOADER_SCRIPT_NAME : String := "RGSS Script Editor Loader"

/-- `LOAD_ORDER_FILE_NAME = 'load_order.txt'`. -/
def LOAD_ORDER_FILE_NAME : String := "load_order.txt"

/-- `SECTION_MAX_VAL = 133_769_420`. -/
def SECTION_MAX_VAL : Nat := 133769420

/-- The character class of `INVALID_CHARACTERS`
(`/[\\/:\*\?"<>\|▼■]/g`). -/
def INVALID_CHARACTERS : List Char :=
  ['\\', '/', ':', '*', '?', '"', '<', '>', '|', '▼', '■']

/-- JavaScript `\d`: the ASCII digits. -/
def isDigitJS (c : Char) : Bool :=
  '0' ≤ c && c ≤ '9'

/-- JavaScript `\s` (also the set trimmed by `String.prototype.trim`):
whitespace and line terminators. -/
def isWsJS (c : Char) : Bool :=
  c = ' ' || c = '\t' || c = '\n' || c = '\r' ||
  c = '\x0b' || c = '\x0c' || c = ' ' ||
  c = ' ' || (' ' ≤ c && c ≤ ' ') ||
  c = ' ' || c = ' ' || c = ' ' ||
  c = ' ' || c = '　' || c = '﻿'

/-- JavaScript `.` in a regex without the `s` flag: any character except
a line terminator. -/
def isDot (c : Char) : Bool :=
  !(c = '\n' || c = '\r' || c = ' ' || c = ' ')

/-- The decimal digit character for `d < 10`. -/
def digitChar (d : Nat) : Char :=
  Char.ofNat (48 + d)

/-- Fuel-driven digit expansion; the fuel only forces structural
termination and is irrelevant once it exceeds the argument. -/
def natDigitsFuel : Nat → Nat → List Char
  | 0, _ => []
  | fuel + 1, n =>
    if n < 10 then [digitChar n]
    else natDigitsFuel fuel (n / 10) ++ [digitChar (n % 10)]

/-- The decimal digits of `n`, most significant first: the JavaScript
`Number.prototype.toString()` rendering of a non-negative integer. -/
def natDigits (n : Nat) : List Char :=
  natDigitsFuel (n + 1) n

theorem natDigitsFuel_congr :
    ∀ f1 f2 n, n < f1 → n < f2 → natDigitsFuel f1 n = natDigitsFuel f2 n := by
  intro f1
  induction f1 with
  | zero => intro f2 n h1; omega
  | succ f ih =>
    intro f2 n h1 h2
    cases f2 with
    | zero => omega
    | succ g =>
      rw [natDigitsFuel, natDigitsFuel]
      by_cases h : n < 10
      · rw [if_pos h, if_pos h]
      · rw [if_neg h, if_neg h, ih g (n / 10) (by omega) (by omega)]

/-- JavaScript `n.toString()` for a non-negative integer. -/
def natToString (n : Nat) : String :=
  String.mk (natDigits n)

/-- JavaScript `String.prototype.padStart(len, c)`. -/
def padStart (s : String) (len : Nat) (c : Char) : String :=
  String.mk (List.replicate (len - s.length) c) ++ s

/-- JavaScript `String.prototype.trim` over a character list. -/
def jsTrimList (l : List Char) : List Char :=
  ((l.dropWhile isWsJS).reverse.dropWhile isWsJS).reverse

/-- JavaScript `String.prototype.trim`. -/
def jsTrim (s : String) : String :=
  String.mk (jsTrimList s.toList)

/-- `scriptName.replace(INVALID_CHARACTERS, '')`: the global regex
replace deletes every occurrence of a character of the class. -/
def stripInvalid (s : String) : String :=
  String.mk (s.toList.filter (fun c => !INVALID_CHARACTERS.contains c))

/-- Whether the character list `s` starts with the pattern `p`. -/
def startsWithList : List Char → List Char → Bool
  | _, [] => true
  | [], _ :: _ => false
  | c :: cs, p :: ps => c = p && startsWithList cs ps

/-- Whether the pattern occurs contiguously anywhere in the list:
JavaScript `String.prototype.includes` over character lists. -/
def containsList : List Char → List Char → Bool
  | s, pat =>
    startsWithList s pat ||
      match s with
      | [] => false
      | _ :: cs => containsList cs pat

/-- JavaScript `String.prototype.includes`. -/
def jsIncludes (s pat : String) : Bool :=
  containsList s.toList pat.toList

/-- Whether `s` ends with `pat`. -/
def endsWithList (s pat : List Char) : Bool :=
  startsWithList (s.drop (s.length - pat.length)) pat && pat.length ≤ s.length

/-- JavaScript `String.prototype.endsWith`. -/
def jsEndsWith (s pat : String) : Bool :=
  endsWithList s.toList pat.toList

/-- Modelled from the spec: `pathResolve.basename` (the `path_resolve`
utility module is not part of the provided sources) returns the final
path component, the part after the last separator. -/
def basename (p : String) : String :=
  String.mk ((p.toList.reverse.takeWhile (fun c => !(c = '/'))).reverse)

/-- Modelled from the spec: `pathResolve.join` joins two path segments
with the separator. -/
def pathJoin (a b : String) : String :=
  a ++ "/" ++ b

/-- Modelled from the spec: `pathResolve.resolveRPG` rewrites a path
into the engine's path-separator convention (forward slashes). -/
def resolveRPG (p : String) : String :=
  String.mk (p.toList.map (fun c => if c = '\\' then '/' else c))

/-- `formatScriptName(scriptName, scriptIndex)`: strips the invalid
characters, trims whitespace, prefixes the 4-digit-padded index and
appends `.rb` when `'.rb'` does not already occur in the string. -/
def formatScriptName (scriptName : String) (scriptIndex : Nat) : String :=
  let index := natToString scriptIndex
  let name0 := stripInvalid scriptName
  let name1 := jsTrim name0
  let name2 := padStart index 4 '0' ++ " - " ++ name1
  if !jsIncludes name2 ".rb" then name2 ++ ".rb" else name2

/-- `isLoaderScript(scriptSection)`. -/
def isLoaderScript (scriptSection : Nat) : Bool :=
  scriptSection = LOADER_SCRIPT_SECTION

/-- `processScriptCode(scriptCode)`: prepends the encoding pragma when
the code does not already contain it. -/
def processScriptCode (scriptCode : String) : String :=
  if !jsIncludes scriptCode "# encoding: utf-8" then
    "# encoding: utf-8\n" ++ scriptCode
  else
    scriptCode

/-!
The regex `DEFORMAT_SCRIPT_NAME = /(?:\d+\s*-.*?)?(.*?)\.rb$/i` is
embedded by its JavaScript backtracking semantics: the leftmost
successful start position wins; within one start position the optional
group is tried before its absence, `\d+` and `\s*` are greedy (longest
first), the two `.*?` quantifiers are lazy (shortest first, the later
choice point backtracking first), and `\.rb$` matches the literal
extension case-insensitively at the end of the string.  Each matcher
returns the contents of capture group 1.
-/

/-- Length of the maximal run of characters satisfying `p` at the head. -/
def runLength (p : Char → Bool) : List Char → Nat
  | [] => 0
  | c :: cs => if p c then runLength p cs + 1 else 0

/-- Case-insensitive match of the literal `.rb` (the `i` flag only
affects the two letters). -/
def ciRb (l : List Char) : Bool :=
  l.map Char.toLower = ['.', 'r', 'b']

/-- Attempt `(.*?)\.rb$` on the suffix `u`: the capture must cover
everything up to a final case-insensitive `.rb`, and `.` does not cross
line terminators.  At a fixed position the capture length is forced, so
laziness is immaterial here. -/
def matchTail (u : List Char) : Option (List Char) :=
  if 3 ≤ u.length then
    let body := u.take (u.length - 3)
    if body.all isDot && ciRb (u.drop (u.length - 3)) then some body else none
  else none

/-- Attempt `.*?(.*?)\.rb$` on the suffix after the dash: the group's
lazy `.*?` consumes as little as possible, handing the rest to
`matchTail` first and growing one `.`-matching character at a time. -/
def matchAfterDash : List Char → Option (List Char)
  | [] => matchTail []
  | c :: rest =>
    match matchTail (c :: rest) with
    | some cap => some cap
    | none => if isDot c then matchAfterDash rest else none

/-- Attempt `\s*-.*?(.*?)\.rb$` where `w` spaces of the maximal
whitespace run are consumed, backtracking greedily from the longest
run down to zero. -/
def trySpacesDash (u : List Char) : Nat → Option (List Char)
  | 0 =>
    (match u with
     | '-' :: rest => matchAfterDash rest
     | _ => none)
  | w + 1 =>
    (match u.drop (w + 1) with
     | '-' :: rest => matchAfterDash rest
     | _ => none).orElse (fun _ => trySpacesDash u w)

/-- Attempt `\d+\s*-.*?(.*?)\.rb$` where `d` digits are consumed,
backtracking greedily from the maximal digit run down to one digit. -/
def tryDigitsGroup (u : List Char) : Nat → Option (List Char)
  | 0 => none
  | d + 1 =>
    (trySpacesDash (u.drop (d + 1)) (runLength isWsJS (u.drop (d + 1)))).orElse
      (fun _ => tryDigitsGroup u d)

/-- Attempt the whole pattern at one start position: the optional group
present first, then absent. -/
def matchAttempt (u : List Char) : Option (List Char) :=
  (tryDigitsGroup u (runLength isDigitJS u)).orElse (fun _ => matchTail u)

/-- Leftmost search of `DEFORMAT_SCRIPT_NAME` over the string, as
`String.prototype.match` performs it. -/
def searchDeformat : List Char → Option (List Char)
  | [] => matchAttempt []
  | c :: rest =>
    match matchAttempt (c :: rest) with
    | some cap => some cap
    | none => searchDeformat rest

/-- `deformatScriptName(script)`: takes the basename, matches the
deformat regex and returns capture group 1, or the basename unchanged
when the regex does not match. -/
def deformatScriptName (script : String) : String :=
  let baseName := basename script
  match searchDeformat baseName.toList with
  | some cap => String.mk cap
  | none => baseName

/-- `generateScriptSection(sections)`: resamples
`Math.floor(Math.random() * SECTION_MAX_VAL)` until the value is not in
`sections`.  The random source is modelled as the stream `rand` of
successive draws; the function returns the accepted draw and the unused
remainder of the stream, or `none` when the stream is exhausted (the
source loop has no iteration bound). -/
def generateScriptSection (sections : List Nat) : List Nat → Option (Nat × List Nat)
  | [] => none
  | r :: rest =>
    if sections.contains r then generateScriptSection sections rest
    else some (r, rest)

/-- A calendar date as JavaScript's `Date` accessors expose it:
`month` is the 0-based `getMonth()` value. -/
structure Date where
  year : Nat
  month : Nat
  day : Nat
  hour : Nat
  minutes : Nat
  seconds : Nat
deriving DecidableEq, Repr

/-- `currentDate()`: formats the date as
`year-month-day_hour.minutes.seconds` with the five small fields
left-padded to two digits. -/
def currentDate (d : Date) : String :=
  let day := padStart (natToString d.day) 2 '0'
  let month := padStart (natToString (d.month + 1)) 2 '0'
  let year := natToString d.year
  let hour := padStart (natToString d.hour) 2 '0'
  let minutes := padStart (natToString d.minutes) 2 '0'
  let seconds := padStart (natToString d.seconds) 2 '0'
  year ++ "-" ++ month ++ "-" ++ day ++ "_" ++ hour ++ "." ++ minutes ++ "." ++ seconds

/-- Whether a character list is a run of exactly `n` ASCII digits. -/
def digitsOfLen : Nat → List Char → Bool
  | 0, [] => true
  | 0, _ :: _ => false
  | _ + 1, [] => false
  | n + 1, c :: cs => isDigitJS c && digitsOfLen n cs

/-- Whether a string has the timestamp shape `yyyy-MM-dd_HH.mm.ss`
used by the backup naming pattern. -/
def timestampShape (s : String) : Bool :=
  match s.toList with
  | [y1, y2, y3, y4, c1, m1, m2, c2, d1, d2, c3, h1, h2, c4, n1, n2, c5, s1, s2] =>
    [y1, y2, y3, y4, m1, m2, d1, d2, h1, h2, n1, n2, s1, s2].all isDigitJS &&
    c1 = '-' && c2 = '-' && c3 = '_' && c4 = '.' && c5 = '.'
  | _ => false

/-- `readBundleFile`'s per-entry conversion of the marshalled data:
`output[i][0]` is the section, `output[i][1]` the UTF-8 decoded name,
`output[i][2]` the inflated code. -/
def readBundleData (m : Marshalled) : List ScriptEntry :=
  (marshalLoad m).map (fun r => ⟨r.«section», textDecode r.name, inflateSync r.code⟩)

/-- The encoding half of `createBundleFile` and
`createScriptLoaderBundle`: each entry becomes the triple
`[section, name, deflate(code)]` and the array is marshalled. -/
def encodeBundleData (entries : List ScriptEntry) : Marshalled :=
  marshalDump (entries.map (fun e => ⟨e.«section», e.name, deflateSync e.code⟩))

/-- `checkValidExtraction(bundle)`: some entry is a non-loader script.
In the typed embedding every decoded section is a number, so the
source's `typeof scriptSection === 'number'` test is identically true. -/
def checkValidExtraction (bundle : List ScriptEntry) : Bool :=
  bundle.any (fun script =>
    if isLoaderScript script.«section» then false else true)

/-- The synthesized loader Ruby script.  The full literal of the source
(a 230-line Ruby program) is treated as an opaque text payload
parameterized, as in the source, by the resolved scripts folder and the
load-order file name; no claim below depends on the payload's contents,
only on its role as the code of the single loader entry. -/
def loaderScript (loaderScriptsFolder : String) : String :=
  "# ** " ++ LOADER_SCRIPT_NAME ++ "\n" ++
  "module ScriptLoaderConfiguration\n  SCRIPTS_PATH = \"" ++
  loaderScriptsFolder ++ "\"\nend\n" ++
  "# loads every script listed in " ++ LOAD_ORDER_FILE_NAME ++ "\n" ++
  "ScriptLoader.run\n"

/-- Contents of one file: script text or marshalled bundle bytes. -/
inductive FileData where
  | text (s : String)
  | bin (m : Marshalled)
deriving DecidableEq, Repr

/-- The file-system state: files as an association list (newest entry
first), the set of directories, and the chronological log of every
file-write target path.  The log makes "writes exactly N files" and
"backup happens before overwrite" expressible. -/
structure FS where
  files : List (String × FileData)
  dirs : List String
  written : List String
deriving DecidableEq, Repr

/-- Contents of the file at `p`, if a file exists there. -/
def FS.readFile (fs : FS) (p : String) : Option FileData :=
  (fs.files.find? (fun q => q.1 = p)).map (fun q => q.2)

/-- Whether a file exists at `p`. -/
def FS.existsFile (fs : FS) (p : String) : Bool :=
  (fs.readFile p).isSome

/-- Whether a directory exists at `p`. -/
def FS.existsDir (fs : FS) (p : String) : Bool :=
  fs.dirs.contains p

/-- `fs.existsSync(p)`: a file or directory exists at `p`. -/
def FS.existsPath (fs : FS) (p : String) : Bool :=
  fs.existsFile p || fs.existsDir p

/-- `fs.writeFileSync` / `fs.copyFileSync` target effect: (over)writes
the file at `p` and appends `p` to the write log. -/
def FS.writeFile (fs : FS) (p : String) (d : FileData) : FS :=
  { files := (p, d) :: fs.files, dirs := fs.dirs, written := fs.written ++ [p] }

/-- `fs.mkdirSync(p, { recursive: true })`. -/
def FS.mkdir (fs : FS) (p : String) : FS :=
  { files := fs.files, dirs := p :: fs.dirs, written := fs.written }

/-- The error kinds of the spec's taxonomy that the embedded operations
surface. -/
inductive Err where
  | notFound
  | format
  | io
deriving DecidableEq, Repr

/-- `createScriptFolder(scriptsFolderPath)`: creates the folder when it
does not exist. -/
def createScriptFolder (scriptsFolderPath : String) (fs : FS) : FS :=
  if !fs.existsPath scriptsFolderPath then fs.mkdir scriptsFolderPath else fs

/-- The backup file path built by `createBackUp`:
`backUpsFolder/{basename filePath} - {currentDate()}.bak`. -/
def backUpPath (filePath backUpsFolder : String) (d : Date) : String :=
  pathJoin backUpsFolder (basename filePath ++ " - " ++ currentDate d ++ ".bak")

/-- `createBackUp(filePath, backUpsFolder)`: throws when the source file
does not exist; otherwise creates the backups folder if missing and
copies the file to
`backUpsFolder/{basename filePath} - {currentDate()}.bak`.  The date is
passed explicitly; an exception leaves the state reached so far. -/
def createBackUp (filePath backUpsFolder : String) (d : Date) (fs : FS) :
    FS × Except Err Unit :=
  if !fs.existsPath filePath then
    (fs, Except.error Err.notFound)
  else
    let fs1 := if !fs.existsPath backUpsFolder then fs.mkdir backUpsFolder else fs
    match fs.readFile filePath with
    | some contents =>
      (fs1.writeFile (backUpPath filePath backUpsFolder d) contents, Except.ok ())
    | none => (fs1, Except.error Err.io)

/-- `createScriptLoaderBundle(bundleFile, backUpsFolderPath, scriptFolder)`:
backs the bundle up first, then synthesizes the loader script, wraps it
as the single entry `[LOADER_SCRIPT_SECTION, LOADER_SCRIPT_NAME,
deflate(loaderScript)]`, marshals it and overwrites the bundle file. -/
def createScriptLoaderBundle (bundleFile backUpsFolderPath scriptFolder : String)
    (d : Date) (fs : FS) : FS × Except Err Nat :=
  match createBackUp bundleFile backUpsFolderPath d fs with
  | (fs1, Except.error e) => (fs1, Except.error e)
  | (fs1, Except.ok _) =>
    let loaderScriptsFolder := resolveRPG scriptFolder
    let script := loaderScript loaderScriptsFolder
    let bundle : List RawEntry :=
      [⟨LOADER_SCRIPT_SECTION, LOADER_SCRIPT_NAME, deflateSync script⟩]
    let bundleMarshalized := marshalDump bundle
    (fs1.writeFile bundleFile (FileData.bin bundleMarshalized),
      Except.ok LOADER_BUNDLE_CREATED)

/-- `readBundleFile(bundleFile)` as a file-system operation: reads the
binary file, un-marshals it and converts each triple.  A missing file is
`NotFoundError`; non-marshal contents fail the marshal load with a
`FormatError`. -/
def readBundleFile (fs : FS) (bundleFile : String) : Except Err (List ScriptEntry) :=
  match fs.readFile bundleFile with
  | none => Except.error Err.notFound
  | some (FileData.text _) => Except.error Err.format
  | some (FileData.bin m) => Except.ok (readBundleData m)

/-- The extraction loop of `extractScripts`: for each entry at index
`i`, formats the name, processes the code, skips the loader entry and
writes every other entry to `scriptFolder`. -/
def extractLoop (scriptFolder : String) : List ScriptEntry → Nat → FS → FS
  | [], _, fs => fs
  | e :: rest, i, fs =>
    let name := formatScriptName e.name i
    let code := processScriptCode e.code
    if isLoaderScript e.«section» then
      extractLoop scriptFolder rest (i + 1) fs
    else
      extractLoop scriptFolder rest (i + 1)
        (fs.writeFile (pathJoin scriptFolder name) (FileData.text code))

/-- `extractScripts(bundleFile, scriptFolder)`: decodes the bundle and,
when a non-loader entry exists, creates the scripts folder and writes
every non-loader entry; otherwise reports the scripts as already
extracted without touching the disk. -/
def extractScripts (bundleFile scriptFolder : String) (fs : FS) :
    FS × Except Err Nat :=
  match readBundleFile fs bundleFile with
  | Except.error e => (fs, Except.error e)
  | Except.ok bundle =>
    if checkValidExtraction bundle then
      let fs1 := createScriptFolder scriptFolder fs
      (extractLoop scriptFolder bundle 0 fs1, Except.ok SCRIPTS_EXTRACTED)
    else
      (fs, Except.ok SCRIPTS_NOT_EXTRACTED)

/-- `checkExtractedScripts(bundleFile)`: decodes the bundle and reports
whether scripts are left to extract. -/
def checkExtractedScripts (bundleFile : String) (fs : FS) : Except Err Nat :=
  match readBundleFile fs bundleFile with
  | Except.error e => Except.error e
  | Except.ok bundle =>
    if checkValidExtraction bundle then Except.ok SCRIPTS_NOT_EXTRACTED
    else Except.ok SCRIPTS_EXTRACTED

/-- The per-script loop of `createBundleFile` over the listed script
files, given as `(path, contents)` pairs: generates a fresh section
avoiding all accumulated ones, deformats the file name, deflates the
file text as read (the bundle stores the text unchanged) and appends the
new section to the accumulator. -/
def createBundleData (scripts : List (String × String)) (sections : List Nat)
    (rand : List Nat) : Option (List RawEntry) :=
  match scripts with
  | [] => some []
  | (path, code) :: rest =>
    match generateScriptSection sections rand with
    | none => none
    | some (sec, rand1) =>
      (createBundleData rest (sections ++ [sec]) rand1).map
        (fun b => ⟨sec, deformatScriptName path, deflateSync code⟩ :: b)

/-- `createBundleFile(scriptsFolder, destination)` restricted to its
data transformation: the directory listing supplies the script files as
`(path, contents)` pairs, the section accumulator starts at
`[LOADER_SCRIPT_SECTION]`, and the resulting array is marshalled (the
written destination file's contents). -/
def createBundleFile (scripts : List (String × String)) (rand : List Nat) :
    Option Marshalled :=
  (createBundleData scripts [LOADER_SCRIPT_SECTION] rand).map marshalDump

/-! ### Helper lemmas -/

theorem digitChar_isDigit {d : Nat} (h : d < 10) : isDigitJS (digitChar d) = true := by
  interval_cases d <;> decide

theorem natDigits_single {n : Nat} (h : n < 10) : natDigits n = [digitChar n] := by
  rw [natDigits, natDigitsFuel, if_pos h]

theorem natDigits_split {n : Nat} (h : ¬n < 10) :
    natDigits n = natDigits (n / 10) ++ [digitChar (n % 10)] := by
  rw [natDigits, natDigitsFuel, if_neg h, natDigits,
    natDigitsFuel_congr n (n / 10 + 1) (n / 10)
      (Nat.div_lt_self (by omega) (by omega)) (by omega)]

theorem natDigits_all_digit (n : Nat) : ∀ c ∈ natDigits n, isDigitJS c = true := by
  induction n using Nat.strong_induction_on with
  | _ n ih =>
    intro c hc
    by_cases h : n < 10
    · rw [natDigits_single h] at hc
      simp at hc
      subst hc
      exact digitChar_isDigit h
    · rw [natDigits_split h] at hc
      simp at hc
      rcases hc with hc | hc
      · exact ih (n / 10) (Nat.div_lt_self (by omega) (by omega)) c hc
      · subst hc
        exact digitChar_isDigit (Nat.mod_lt n (by omega))

theorem natDigits_len_two {n : Nat} (h10 : 10 ≤ n) (h100 : n < 100) :
    (natDigits n).length = 2 := by
  rw [natDigits_split (by omega)]
  rw [natDigits_single (by omega)]
  rfl

theorem string_toList_mk (l : List Char) : (String.mk l).toList = l := rfl

theorem string_toList_append (a b : String) :
    (a ++ b).toList = a.toList ++ b.toList := by
  simp [String.toList]

theorem twoDigitChars {n : Nat} (h : n < 100) :
    ∃ a b, (padStart (natToString n) 2 '0').toList = [a, b] ∧
      isDigitJS a = true ∧ isDigitJS b = true := by
  by_cases h10 : n < 10
  · refine ⟨'0', digitChar n, ?_, by decide, digitChar_isDigit h10⟩
    rw [padStart, natToString, natDigits_single h10]
    rfl
  · have hd : n / 10 < 10 := by omega
    have hm : n % 10 < 10 := by omega
    refine ⟨digitChar (n / 10), digitChar (n % 10), ?_,
      digitChar_isDigit hd, digitChar_isDigit hm⟩
    rw [padStart, natToString, natDigits_split h10, natDigits_single hd]
    rfl

theorem fourDigitChars {n : Nat} (h1 : 1000 ≤ n) (h2 : n < 10000) :
    ∃ a b c d, (natToString n).toList = [a, b, c, d] ∧
      isDigitJS a = true ∧ isDigitJS b = true ∧
      isDigitJS c = true ∧ isDigitJS d = true := by
  have e1 : natDigits n = natDigits (n / 10) ++ [digitChar (n % 10)] :=
    natDigits_split (by omega)
  have e2 : natDigits (n / 10) = natDigits (n / 10 / 10) ++ [digitChar (n / 10 % 10)] :=
    natDigits_split (by omega)
  have e3 : natDigits (n / 10 / 10) =
      natDigits (n / 10 / 10 / 10) ++ [digitChar (n / 10 / 10 % 10)] :=
    natDigits_split (by omega)
  have e4 : natDigits (n / 10 / 10 / 10) = [digitChar (n / 10 / 10 / 10)] :=
    natDigits_single (by omega)
  have q1 : n / 10 / 10 / 10 < 10 := by omega
  have q2 : n / 10 / 10 % 10 < 10 := by omega
  have q3 : n / 10 % 10 < 10 := by omega
  have q4 : n % 10 < 10 := by omega
  refine ⟨digitChar (n / 10 / 10 / 10), digitChar (n / 10 / 10 % 10),
    digitChar (n / 10 % 10), digitChar (n % 10), ?_,
    digitChar_isDigit q1, digitChar_isDigit q2,
    digitChar_isDigit q3, digitChar_isDigit q4⟩
  rw [natToString, e1, e2, e3, e4]
  rfl

/-! ### Claim theorems -/

/-- C1: for every sequence of `ScriptEntry` records with pairwise
distinct sections, encoding the sequence into bundle bytes (deflating
each code payload and marshalling the `[section, name, compressed-code]`
triples) and decoding those bytes with `readBundleFile`'s conversion
yields entries equal to the originals in section, name and decompressed
code. -/
theorem readBundle_encodeBundle_roundtrip (entries : List ScriptEntry)
    (_hsec : entries.Pairwise (fun a b => a.«section» ≠ b.«section»)) :
    readBundleData (encodeBundleData entries) = entries := by
  simp only [readBundleData, encodeBundleData, marshalDump, marshalLoad,
    textDecode, inflateSync, deflateSync, List.map_map, Function.comp_def]
  exact List.map_id entries

/-- Witness for `readBundle_encodeBundle_roundtrip` at a concrete
two-entry bundle. -/
theorem readBundle_encodeBundle_roundtrip_witness :
    readBundleData (encodeBundleData
      [⟨5, "Main", "puts 1"⟩, ⟨7, "Util", "puts 2"⟩]) =
      [⟨5, "Main", "puts 1"⟩, ⟨7, "Util", "puts 2"⟩] :=
  readBundle_encodeBundle_roundtrip
    [⟨5, "Main", "puts 1"⟩, ⟨7, "Util", "puts 2"⟩] (by decide)

/-- C6: for every decoded bundle, `checkExtractedScripts` reports
`SCRIPTS_NOT_EXTRACTED` exactly when some entry's section is not the
reserved loader section, and `SCRIPTS_EXTRACTED` otherwise. -/
theorem checkExtractedScripts_iff (bundleFile : String) (fs : FS) (m : Marshalled)
    (hread : fs.readFile bundleFile = some (FileData.bin m)) :
    (checkExtractedScripts bundleFile fs = Except.ok SCRIPTS_NOT_EXTRACTED ↔
      ∃ e ∈ readBundleData m, isLoaderScript e.«section» = false) ∧
    (checkExtractedScripts bundleFile fs = Except.ok SCRIPTS_EXTRACTED ↔
      ¬∃ e ∈ readBundleData m, isLoaderScript e.«section» = false) := by
  have hval : checkValidExtraction (readBundleData m) = true ↔
      ∃ e ∈ readBundleData m, isLoaderScript e.«section» = false := by
    rw [checkValidExtraction, List.any_eq_true]
    constructor
    · rintro ⟨e, he, hp⟩
      by_cases hl : isLoaderScript e.«section»
      · simp [hl] at hp
      · exact ⟨e, he, by simp [Bool.eq_false_iff.mpr hl]⟩
    · rintro ⟨e, he, hp⟩
      exact ⟨e, he, by simp [hp]⟩
  cases hb : checkValidExtraction (readBundleData m) with
  | false =>
    have hne : ¬∃ e ∈ readBundleData m, isLoaderScript e.«section» = false := by
      intro hex
      rw [hval.mpr hex] at hb
      cases hb
    simp only [checkExtractedScripts, readBundleFile, hread, hb]
    simp [SCRIPTS_NOT_EXTRACTED, SCRIPTS_EXTRACTED, hne]
  | true =>
    have hex := hval.mp hb
    simp only [checkExtractedScripts, readBundleFile, hread, hb]
    simp [SCRIPTS_NOT_EXTRACTED, SCRIPTS_EXTRACTED, hex]

/-- Witness for `checkExtractedScripts_iff` at a concrete bundle holding
one loader entry and one plain script. -/
theorem checkExtractedScripts_iff_witness :
    FS.readFile ⟨[("Data.rvdata2", FileData.bin (marshalDump
        [⟨5, "Main", deflateSync "puts 1"⟩]))], [], []⟩ "Data.rvdata2" =
      some (FileData.bin (marshalDump [⟨5, "Main", deflateSync "puts 1"⟩])) ∧
    checkExtractedScripts "Data.rvdata2"
      ⟨[("Data.rvdata2", FileData.bin (marshalDump
        [⟨5, "Main", deflateSync "puts 1"⟩]))], [], []⟩ =
      Except.ok SCRIPTS_NOT_EXTRACTED := by
  refine ⟨by decide, ?_⟩
  exact (checkExtractedScripts_iff "Data.rvdata2"
    ⟨[("Data.rvdata2", FileData.bin (marshalDump
      [⟨5, "Main", deflateSync "puts 1"⟩]))], [], []⟩
    (marshalDump [⟨5, "Main", deflateSync "puts 1"⟩]) (by decide)).1.mpr
    ⟨⟨5, "Main", "puts 1"⟩, by decide, by decide⟩

theorem generateScriptSection_spec (rand : List Nat) :
    ∀ sections s rest, (∀ r ∈ rand, r < SECTION_MAX_VAL) →
      generateScriptSection sections rand = some (s, rest) →
      s < SECTION_MAX_VAL ∧ s ∉ sections ∧
        ∀ r ∈ rest, r < SECTION_MAX_VAL := by
  induction rand with
  | nil => intro sections s rest _ h; cases h
  | cons r t ih =>
    intro sections s rest hr h
    rw [generateScriptSection] at h
    by_cases hc : sections.contains r
    · rw [if_pos hc] at h
      exact ih sections s rest (fun x hx => hr x (List.mem_cons_of_mem r hx)) h
    · rw [if_neg hc] at h
      cases h
      refine ⟨hr r (List.mem_cons_self r t), ?_,
        fun x hx => hr x (List.mem_cons_of_mem r hx)⟩
      intro hin
      exact hc (by simpa using hin)

theorem createBundleData_sections_spec (scripts : List (String × String)) :
    ∀ sections rand b, (∀ r ∈ rand, r < SECTION_MAX_VAL) →
      createBundleData scripts sections rand = some b →
      (b.map (fun e => e.«section»)).Nodup ∧
        ∀ s ∈ b.map (fun e => e.«section»),
          s < SECTION_MAX_VAL ∧ s ∉ sections := by
  induction scripts with
  | nil =>
    intro sections rand b _ h
    rw [createBundleData] at h
    cases h
    exact ⟨List.nodup_nil, by intro s hs; cases hs⟩
  | cons pc rest ih =>
    intro sections rand b hr h
    rw [createBundleData] at h
    cases hgen : generateScriptSection sections rand with
    | none => rw [hgen] at h; cases h
    | some p =>
      obtain ⟨sec, rand1⟩ := p
      rw [hgen] at h
      have h2 : Option.map
          (fun b => (⟨sec, deformatScriptName pc.1, deflateSync pc.2⟩ : RawEntry) :: b)
          (createBundleData rest (sections ++ [sec]) rand1) = some b := h
      obtain ⟨hsec, hfresh, hrand1⟩ :=
        generateScriptSection_spec rand sections sec rand1 hr hgen
      cases htail : createBundleData rest (sections ++ [sec]) rand1 with
      | none => rw [htail] at h2; cases h2
      | some btail =>
        rw [htail] at h2
        simp only [Option.map_some'] at h2
        cases h2
        obtain ⟨hnodup, hmem⟩ := ih (sections ++ [sec]) rand1 btail hrand1 htail
        constructor
        · refine List.nodup_cons.mpr ⟨?_, hnodup⟩
          intro hin
          exact (hmem sec hin).2 (List.mem_append_right sections (by simp))
        · intro s hs
          rcases List.mem_cons.mp hs with hs | hs
          · subst hs; exact ⟨hsec, hfresh⟩
          · obtain ⟨h1, hnot⟩ := hmem s hs
            exact ⟨h1, fun hin => hnot (List.mem_append_left [sec] hin)⟩

/-- C9: `generateScriptSection` only returns a value below
`SECTION_MAX_VAL` that is absent from the supplied section list and is
never the loader's reserved section, and across one `createBundleFile`
run (whose accumulator starts at `[LOADER_SCRIPT_SECTION]`) the assigned
sections are pairwise distinct and all distinct from the loader's. -/
theorem generateScriptSection_fresh (sections rand : List Nat)
    (hr : ∀ r ∈ rand, r < SECTION_MAX_VAL) :
    (∀ s rest, generateScriptSection sections rand = some (s, rest) →
      s < SECTION_MAX_VAL ∧ s ∉ sections ∧ isLoaderScript s = false) ∧
    (∀ scripts m, createBundleFile scripts rand = some m →
      ((marshalLoad m).map (fun e => e.«section»)).Nodup ∧
        ∀ s ∈ (marshalLoad m).map (fun e => e.«section»),
          isLoaderScript s = false) := by
  constructor
  · intro s rest h
    obtain ⟨h1, h2, _⟩ := generateScriptSection_spec rand sections s rest hr h
    refine ⟨h1, h2, ?_⟩
    simp only [isLoaderScript, LOADER_SCRIPT_SECTION]
    simp only [SECTION_MAX_VAL] at h1
    simp only [decide_eq_false_iff_not]
    omega
  · intro scripts m h
    rw [createBundleFile] at h
    cases hdata : createBundleData scripts [LOADER_SCRIPT_SECTION] rand with
    | none => rw [hdata] at h; cases h
    | some b =>
      rw [hdata] at h
      simp only [Option.map_some'] at h
      cases h
      obtain ⟨hnodup, hmem⟩ :=
        createBundleData_sections_spec scripts [LOADER_SCRIPT_SECTION] rand b hr hdata
      refine ⟨hnodup, ?_⟩
      intro s hs
      obtain ⟨_, hnot⟩ := hmem s hs
      simp only [isLoaderScript, decide_eq_false_iff_not]
      intro hc
      exact hnot (by simp [hc])

/-- Witness for `generateScriptSection_fresh` with the loader section
accumulated and the random stream `[0]`. -/
theorem generateScriptSection_fresh_witness :
    (∀ r ∈ [0], r < SECTION_MAX_VAL) ∧
    (∀ s rest, generateScriptSection [LOADER_SCRIPT_SECTION] [0] = some (s, rest) →
      s < SECTION_MAX_VAL ∧ s ∉ [LOADER_SCRIPT_SECTION] ∧
        isLoaderScript s = false) :=
  ⟨by decide, (generateScriptSection_fresh [LOADER_SCRIPT_SECTION] [0] (by decide)).1⟩

/-- C4 counterexample: building from the file `Main.rb` whose content
`puts 1` lacks the encoding pragma stores the text unchanged in the
bundle entry, not the pragma-prepended text the claim requires. -/
theorem createBundleFile_no_pragma_counterexample :
    createBundleFile [("Main.rb", "puts 1")] [0] =
      some (marshalDump [⟨0, "Main", deflateSync "puts 1"⟩]) ∧
    jsIncludes "puts 1" "# encoding: utf-8" = false ∧
    inflateSync (deflateSync "puts 1") ≠ processScriptCode "puts 1" :=
  ⟨by decide, by decide, by decide⟩

/-- C4 amended: `createBundleFile` stores every consumed file's text
byte-identically (in particular a file already starting with the pragma
is stored unchanged); the pragma prepending is performed by
`processScriptCode`, which prepends exactly when the pragma is absent
and leaves text already containing it unchanged. -/
theorem createBundleData_stores_text (scripts : List (String × String)) :
    (∀ sections rand b, createBundleData scripts sections rand = some b →
      b.map (fun e => inflateSync e.code) = scripts.map (fun pc => pc.2)) ∧
    (∀ c, (jsIncludes c "# encoding: utf-8" = false →
        processScriptCode c = "# encoding: utf-8\n" ++ c) ∧
      (jsIncludes c "# encoding: utf-8" = true → processScriptCode c = c)) := by
  constructor
  · induction scripts with
    | nil =>
      intro sections rand b h
      rw [createBundleData] at h
      cases h
      rfl
    | cons pc rest ih =>
      intro sections rand b h
      rw [createBundleData] at h
      cases hgen : generateScriptSection sections rand with
      | none => rw [hgen] at h; cases h
      | some p =>
        obtain ⟨sec, rand1⟩ := p
        rw [hgen] at h
        have h2 : Option.map
            (fun b => (⟨sec, deformatScriptName pc.1, deflateSync pc.2⟩ : RawEntry) :: b)
            (createBundleData rest (sections ++ [sec]) rand1) = some b := h
        cases htail : createBundleData rest (sections ++ [sec]) rand1 with
        | none => rw [htail] at h2; cases h2
        | some btail =>
          rw [htail] at h2
          simp only [Option.map_some'] at h2
          cases h2
          simp only [List.map_cons, List.cons.injEq]
          exact ⟨rfl, ih (sections ++ [sec]) rand1 btail htail⟩
  · intro c
    constructor
    · intro h
      rw [processScriptCode, h]
      rfl
    · intro h
      rw [processScriptCode, h]
      rfl

/-- Witness for `createBundleData_stores_text` at a concrete one-file
build. -/
theorem createBundleData_stores_text_witness :
    createBundleData [("Main.rb", "puts 1")] [LOADER_SCRIPT_SECTION] [0] =
      some [⟨0, "Main", deflateSync "puts 1"⟩] ∧
    ([(⟨0, "Main", deflateSync "puts 1"⟩ : RawEntry)].map
        (fun e => inflateSync e.code) =
      [("Main.rb", "puts 1")].map (fun pc => pc.2)) ∧
    jsIncludes "# encoding: utf-8\nputs 1" "# encoding: utf-8" = true ∧
    processScriptCode "# encoding: utf-8\nputs 1" = "# encoding: utf-8\nputs 1" :=
  ⟨by decide,
    (createBundleData_stores_text [("Main.rb", "puts 1")]).1
      [LOADER_SCRIPT_SECTION] [0] _ (by decide),
    by decide,
    ((createBundleData_stores_text [("Main.rb", "puts 1")]).2
      "# encoding: utf-8\nputs 1").2 (by decide)⟩

theorem readFile_mkdirIte (fs : FS) (p q : String) (c : Prop) [Decidable c] :
    (if c then fs.mkdir p else fs).readFile q = fs.readFile q := by
  by_cases h : c
  · rw [if_pos h]; rfl
  · rw [if_neg h]

theorem written_mkdirIte (fs : FS) (p : String) (c : Prop) [Decidable c] :
    (if c then fs.mkdir p else fs).written = fs.written := by
  by_cases h : c
  · rw [if_pos h]; rfl
  · rw [if_neg h]

/-- C2: `createScriptLoaderBundle` fails with the not-found error when
the source bundle file does not exist; whenever the backup step fails,
the whole operation surfaces that failure with the bundle file's
contents untouched and no write performed; and every successful run logs
the backup copy strictly before the bundle overwrite. -/
theorem createScriptLoaderBundle_backup_first
    (bundleFile backUpsFolderPath scriptFolder : String) (d : Date) (fs : FS) :
    (fs.existsPath bundleFile = false →
      createScriptLoaderBundle bundleFile backUpsFolderPath scriptFolder d fs =
        (fs, Except.error Err.notFound)) ∧
    (∀ e fsE, createBackUp bundleFile backUpsFolderPath d fs = (fsE, Except.error e) →
      createScriptLoaderBundle bundleFile backUpsFolderPath scriptFolder d fs =
        (fsE, Except.error e) ∧
      fsE.readFile bundleFile = fs.readFile bundleFile ∧
      fsE.written = fs.written) ∧
    (∀ fsO r,
      createScriptLoaderBundle bundleFile backUpsFolderPath scriptFolder d fs =
        (fsO, Except.ok r) →
      r = LOADER_BUNDLE_CREATED ∧
      fsO.written = fs.written ++
        [backUpPath bundleFile backUpsFolderPath d, bundleFile]) := by
  refine ⟨?_, ?_, ?_⟩
  · intro hne
    simp [createScriptLoaderBundle, createBackUp, hne]
  · intro e fsE h
    by_cases hex : fs.existsPath bundleFile = true
    · cases hrf : fs.readFile bundleFile with
      | some contents =>
        have hcb : createBackUp bundleFile backUpsFolderPath d fs =
            ((if !fs.existsPath backUpsFolderPath then
                fs.mkdir backUpsFolderPath else fs).writeFile
              (backUpPath bundleFile backUpsFolderPath d) contents, Except.ok ()) := by
          simp [createBackUp, hex, hrf]
        rw [hcb] at h
        simp at h
      | none =>
        have hcb : createBackUp bundleFile backUpsFolderPath d fs =
            ((if !fs.existsPath backUpsFolderPath then
                fs.mkdir backUpsFolderPath else fs), Except.error Err.io) := by
          simp [createBackUp, hex, hrf]
        have hpair := hcb.symm.trans h
        have h1 : (if !fs.existsPath backUpsFolderPath then
            fs.mkdir backUpsFolderPath else fs) = fsE :=
          congrArg Prod.fst hpair
        have he : Err.io = e := Except.error.inj (congrArg Prod.snd hpair)
        have hrun : createScriptLoaderBundle bundleFile backUpsFolderPath
            scriptFolder d fs =
            ((if !fs.existsPath backUpsFolderPath then
              fs.mkdir backUpsFolderPath else fs), Except.error Err.io) := by
          simp only [createScriptLoaderBundle, hcb]
        refine ⟨?_, ?_, ?_⟩
        · rw [← h1, ← he]
          exact hrun
        · rw [← h1, readFile_mkdirIte fs backUpsFolderPath bundleFile _]
          exact hrf
        · rw [← h1]
          exact written_mkdirIte fs backUpsFolderPath _
    · have hex2 : fs.existsPath bundleFile = false := by
        simpa using hex
      have hcb : createBackUp bundleFile backUpsFolderPath d fs =
          (fs, Except.error Err.notFound) := by
        simp [createBackUp, hex2]
      have hpair := hcb.symm.trans h
      have h1 : fs = fsE := congrArg Prod.fst hpair
      have he : Err.notFound = e := Except.error.inj (congrArg Prod.snd hpair)
      have hrun : createScriptLoaderBundle bundleFile backUpsFolderPath
          scriptFolder d fs = (fs, Except.error Err.notFound) := by
        simp only [createScriptLoaderBundle, hcb]
      exact ⟨by rw [← h1, ← he]; exact hrun, by rw [← h1], by rw [← h1]⟩
  · intro fsO r h
    by_cases hex : fs.existsPath bundleFile = true
    · cases hrf : fs.readFile bundleFile with
      | some contents =>
        have hcb : createBackUp bundleFile backUpsFolderPath d fs =
            ((if !fs.existsPath backUpsFolderPath then
                fs.mkdir backUpsFolderPath else fs).writeFile
              (backUpPath bundleFile backUpsFolderPath d) contents, Except.ok ()) := by
          simp [createBackUp, hex, hrf]
        simp only [createScriptLoaderBundle, hcb] at h
        have h2 : (((if !fs.existsPath backUpsFolderPath then
              fs.mkdir backUpsFolderPath else fs).writeFile
            (backUpPath bundleFile backUpsFolderPath d) contents).writeFile bundleFile
              (FileData.bin (marshalDump
                [⟨LOADER_SCRIPT_SECTION, LOADER_SCRIPT_NAME,
                  deflateSync (loaderScript (resolveRPG scriptFolder))⟩])),
            Except.ok LOADER_BUNDLE_CREATED) = (fsO, Except.ok r) := h
        have hr2 : Except.ok (ε := Err) LOADER_BUNDLE_CREATED = Except.ok r :=
          congrArg Prod.snd h2
        have hfs : fsO = ((if !fs.existsPath backUpsFolderPath then
              fs.mkdir backUpsFolderPath else fs).writeFile
            (backUpPath bundleFile backUpsFolderPath d) contents).writeFile bundleFile
              (FileData.bin (marshalDump
                [⟨LOADER_SCRIPT_SECTION, LOADER_SCRIPT_NAME,
                  deflateSync (loaderScript (resolveRPG scriptFolder))⟩])) :=
          (congrArg Prod.fst h2).symm
        constructor
        · injection hr2 with hr3
          exact hr3.symm
        · rw [hfs]
          show ((if !fs.existsPath backUpsFolderPath then
              fs.mkdir backUpsFolderPath else fs).written ++
              [backUpPath bundleFile backUpsFolderPath d]) ++ [bundleFile] =
            fs.written ++ [backUpPath bundleFile backUpsFolderPath d, bundleFile]
          rw [written_mkdirIte fs backUpsFolderPath _, List.append_assoc]
          rfl
      | none =>
        have hcb : createBackUp bundleFile backUpsFolderPath d fs =
            ((if !fs.existsPath backUpsFolderPath then
                fs.mkdir backUpsFolderPath else fs), Except.error Err.io) := by
          simp [createBackUp, hex, hrf]
        simp only [createScriptLoaderBundle, hcb] at h
        exact absurd (congrArg Prod.snd h) (by simp)
    · have hex2 : fs.existsPath bundleFile = false := by
        simpa using hex
      have hcb : createBackUp bundleFile backUpsFolderPath d fs =
          (fs, Except.error Err.notFound) := by
        simp [createBackUp, hex2]
      simp only [createScriptLoaderBundle, hcb] at h
      exact absurd (congrArg Prod.snd h) (by simp)

/-- Witness for `createScriptLoaderBundle_backup_first` on an empty file
system, where the source bundle is missing. -/
theorem createScriptLoaderBundle_backup_first_witness :
    FS.existsPath ⟨[], [], []⟩ "Data.rvdata2" = false ∧
    createScriptLoaderBundle "Data.rvdata2" "backups" "Scripts"
      ⟨2024, 0, 5, 7, 3, 9⟩ ⟨[], [], []⟩ =
      (⟨[], [], []⟩, Except.error Err.notFound) :=
  ⟨by decide,
    (createScriptLoaderBundle_backup_first "Data.rvdata2" "backups" "Scripts"
      ⟨2024, 0, 5, 7, 3, 9⟩ ⟨[], [], []⟩).1 (by decide)⟩

theorem FS.readFile_writeFile_self (fs : FS) (p : String) (dt : FileData) :
    (fs.writeFile p dt).readFile p = some dt := by
  simp [FS.writeFile, FS.readFile]

theorem FS.readFile_writeFile_ne (fs : FS) (p : String) (dt : FileData)
    (q : String) (h : q ≠ p) : (fs.writeFile p dt).readFile q = fs.readFile q := by
  simp [FS.writeFile, FS.readFile, List.find?_cons, Ne.symm h]

theorem startsWithList_append (a b : List Char) :
    startsWithList (a ++ b) a = true := by
  induction a with
  | nil => cases b <;> rfl
  | cons c t ih => simpa [startsWithList] using ih

theorem timestampShape_currentDate (d : Date)
    (hy1 : 1000 ≤ d.year) (hy2 : d.year < 10000)
    (hmo : d.month ≤ 11) (hdy : d.day ≤ 31) (hhr : d.hour ≤ 23)
    (hmi : d.minutes ≤ 59) (hsc : d.seconds ≤ 59) :
    timestampShape (currentDate d) = true := by
  obtain ⟨y1, y2, y3, y4, hy, hy1d, hy2d, hy3d, hy4d⟩ := fourDigitChars hy1 hy2
  obtain ⟨m1, m2, hm, hm1, hm2⟩ := twoDigitChars (show d.month + 1 < 100 by omega)
  obtain ⟨e1, e2, he, he1, he2⟩ := twoDigitChars (show d.day < 100 by omega)
  obtain ⟨h1, h2, hh, hh1, hh2⟩ := twoDigitChars (show d.hour < 100 by omega)
  obtain ⟨n1, n2, hn, hn1, hn2⟩ := twoDigitChars (show d.minutes < 100 by omega)
  obtain ⟨s1, s2, hs, hs1, hs2⟩ := twoDigitChars (show d.seconds < 100 by omega)
  have hlist : (currentDate d).toList =
      [y1, y2, y3, y4, '-', m1, m2, '-', e1, e2, '_',
        h1, h2, '.', n1, n2, '.', s1, s2] := by
    simp only [currentDate, string_toList_append, hy, hm, he, hh, hn, hs]
    rfl
  rw [timestampShape, hlist]
  simp [hy1d, hy2d, hy3d, hy4d, hm1, hm2, he1, he2, hh1, hh2, hn1, hn2, hs1, hs2]

/-- C3: a successful `createScriptLoaderBundle` run against an existing
bundle file adds exactly one new file, located in the backups folder and
named `{basename} - {yyyy-MM-dd_HH.mm.ss}.bak` after the original
basename and the second-resolution timestamp, leaves every other path
untouched, and afterwards the bundle file decodes to exactly one entry
bearing the reserved loader section. -/
theorem createScriptLoaderBundle_creates_backup_and_loader
    (bundleFile backUpsFolderPath scriptFolder : String) (d : Date) (fs : FS)
    (contents : FileData)
    (hread : fs.readFile bundleFile = some contents)
    (hfresh : fs.readFile (backUpPath bundleFile backUpsFolderPath d) = none)
    (hy1 : 1000 ≤ d.year) (hy2 : d.year < 10000)
    (hmo : d.month ≤ 11) (hdy : d.day ≤ 31) (hhr : d.hour ≤ 23)
    (hmi : d.minutes ≤ 59) (hsc : d.seconds ≤ 59) :
    ∃ fsO, createScriptLoaderBundle bundleFile backUpsFolderPath scriptFolder d fs =
        (fsO, Except.ok LOADER_BUNDLE_CREATED) ∧
      fsO.readFile (backUpPath bundleFile backUpsFolderPath d) = some contents ∧
      backUpPath bundleFile backUpsFolderPath d =
        pathJoin backUpsFolderPath
          (basename bundleFile ++ " - " ++ currentDate d ++ ".bak") ∧
      startsWithList (backUpPath bundleFile backUpsFolderPath d).toList
        (backUpsFolderPath ++ "/").toList = true ∧
      timestampShape (currentDate d) = true ∧
      (∀ q, q ≠ backUpPath bundleFile backUpsFolderPath d → q ≠ bundleFile →
        fsO.readFile q = fs.readFile q) ∧
      (∃ m, fsO.readFile bundleFile = some (FileData.bin m) ∧
        ∃ e, readBundleData m = [e] ∧ isLoaderScript e.«section» = true) := by
  have hex : fs.existsPath bundleFile = true := by
    simp [FS.existsPath, FS.existsFile, hread]
  have hcb : createBackUp bundleFile backUpsFolderPath d fs =
      ((if !fs.existsPath backUpsFolderPath then
          fs.mkdir backUpsFolderPath else fs).writeFile
        (backUpPath bundleFile backUpsFolderPath d) contents, Except.ok ()) := by
    simp [createBackUp, hex, hread]
  have hrun : createScriptLoaderBundle bundleFile backUpsFolderPath
      scriptFolder d fs =
      (((if !fs.existsPath backUpsFolderPath then
          fs.mkdir backUpsFolderPath else fs).writeFile
        (backUpPath bundleFile backUpsFolderPath d) contents).writeFile bundleFile
        (FileData.bin (marshalDump
          [⟨LOADER_SCRIPT_SECTION, LOADER_SCRIPT_NAME,
            deflateSync (loaderScript (resolveRPG scriptFolder))⟩])),
        Except.ok LOADER_BUNDLE_CREATED) := by
    simp only [createScriptLoaderBundle, hcb]
  have hne : backUpPath bundleFile backUpsFolderPath d ≠ bundleFile := by
    intro h
    rw [h, hread] at hfresh
    cases hfresh
  refine ⟨_, hrun, ?_, rfl, ?_, ?_, ?_, ?_⟩
  · rw [FS.readFile_writeFile_ne _ _ _ _ hne]
    exact FS.readFile_writeFile_self _ _ _
  · show startsWithList ((backUpsFolderPath ++ "/") ++
      (basename bundleFile ++ " - " ++ currentDate d ++ ".bak")).toList
      (backUpsFolderPath ++ "/").toList = true
    rw [string_toList_append]
    exact startsWithList_append _ _
  · exact timestampShape_currentDate d hy1 hy2 hmo hdy hhr hmi hsc
  · intro q hq1 hq2
    rw [FS.readFile_writeFile_ne _ _ _ _ hq2, FS.readFile_writeFile_ne _ _ _ _ hq1]
    exact readFile_mkdirIte fs backUpsFolderPath q _
  · refine ⟨marshalDump
      [⟨LOADER_SCRIPT_SECTION, LOADER_SCRIPT_NAME,
        deflateSync (loaderScript (resolveRPG scriptFolder))⟩],
      FS.readFile_writeFile_self _ _ _,
      ⟨LOADER_SCRIPT_SECTION, LOADER_SCRIPT_NAME,
        inflateSync (deflateSync (loaderScript (resolveRPG scriptFolder)))⟩,
      rfl, by simp [isLoaderScript]⟩

/-- Witness for `createScriptLoaderBundle_creates_backup_and_loader`
with a concrete one-file file system and a concrete date. -/
theorem createScriptLoaderBundle_creates_backup_and_loader_witness :
    FS.readFile ⟨[("P/Data.rvdata2", FileData.bin (marshalDump []))], [], []⟩
      "P/Data.rvdata2" = some (FileData.bin (marshalDump [])) ∧
    FS.readFile ⟨[("P/Data.rvdata2", FileData.bin (marshalDump []))], [], []⟩
      (backUpPath "P/Data.rvdata2" "P/backups" ⟨2024, 0, 5, 7, 3, 9⟩) = none ∧
    ∃ fsO, createScriptLoaderBundle "P/Data.rvdata2" "P/backups" "Scripts"
        ⟨2024, 0, 5, 7, 3, 9⟩
        ⟨[("P/Data.rvdata2", FileData.bin (marshalDump []))], [], []⟩ =
      (fsO, Except.ok LOADER_BUNDLE_CREATED) := by
  refine ⟨by decide, by decide, ?_⟩
  obtain ⟨fsO, hrun, -⟩ :=
    createScriptLoaderBundle_creates_backup_and_loader "P/Data.rvdata2" "P/backups"
      "Scripts" ⟨2024, 0, 5, 7, 3, 9⟩
      ⟨[("P/Data.rvdata2", FileData.bin (marshalDump []))], [], []⟩
      (FileData.bin (marshalDump [])) (by decide) (by decide)
      (by decide) (by decide) (by decide) (by decide) (by decide) (by decide) (by decide)
  exact ⟨fsO, hrun⟩

theorem written_createScriptFolder (p : String) (fs : FS) :
    (createScriptFolder p fs).written = fs.written := by
  rw [createScriptFolder]
  exact written_mkdirIte fs p _

theorem readFile_createScriptFolder (p q : String) (fs : FS) :
    (createScriptFolder p fs).readFile q = fs.readFile q := by
  rw [createScriptFolder]
  exact readFile_mkdirIte fs p q _

theorem extractLoop_written (folder : String) :
    ∀ (b : List ScriptEntry) (i : Nat) (fs : FS),
      (extractLoop folder b i fs).written = fs.written ++
        ((List.enumFrom i b).filter
            (fun q => !isLoaderScript q.2.«section»)).map
          (fun q => pathJoin folder (formatScriptName q.2.name q.1)) := by
  intro b
  induction b with
  | nil => intro i fs; simp [extractLoop]
  | cons e rest ih =>
    intro i fs
    rw [extractLoop]
    by_cases hl : isLoaderScript e.«section» = true
    · rw [if_pos hl, ih]
      simp [List.enumFrom, List.filter_cons, hl]
    · rw [if_neg hl, ih]
      have hl2 : isLoaderScript e.«section» = false := by
        cases h : isLoaderScript e.«section»
        · rfl
        · exact absurd h hl
      simp [List.enumFrom, List.filter_cons, hl2, FS.writeFile]

theorem enumFrom_filter_length (p : ScriptEntry → Bool) :
    ∀ (b : List ScriptEntry) (i : Nat),
      ((List.enumFrom i b).filter (fun q => p q.2)).length =
        (b.filter p).length := by
  intro b
  induction b with
  | nil => intro i; rfl
  | cons e rest ih =>
    intro i
    by_cases h : p e = true
    · simp [List.enumFrom, List.filter_cons, h, ih]
    · have h2 : p e = false := by
        cases hh : p e
        · rfl
        · exact absurd hh h
      simp [List.enumFrom, List.filter_cons, h2, ih]

theorem checkValidExtraction_eq_any (b : List ScriptEntry) :
    checkValidExtraction b = b.any (fun e => !isLoaderScript e.«section») := by
  rw [checkValidExtraction]
  congr 1
  funext s
  by_cases h : isLoaderScript s.«section» = true
  · simp [h]
  · simp [Bool.eq_false_iff.mpr h]

theorem checkValidExtraction_iff_filter (b : List ScriptEntry) :
    checkValidExtraction b = true ↔
      0 < (b.filter (fun e => !isLoaderScript e.«section»)).length := by
  rw [checkValidExtraction_eq_any, List.any_eq_true]
  constructor
  · rintro ⟨e, he, hp⟩
    have : e ∈ b.filter (fun e => !isLoaderScript e.«section») :=
      List.mem_filter.mpr ⟨he, hp⟩
    exact List.length_pos.mpr (fun hnil => by rw [hnil] at this; cases this)
  · intro hlen
    obtain ⟨e, he⟩ := List.exists_mem_of_length_pos hlen
    obtain ⟨he1, he2⟩ := List.mem_filter.mp he
    exact ⟨e, he1, he2⟩

/-- C5: extracting a bundle made of one loader entry and `N` non-loader
entries performs exactly the `N` writes of the non-loader entries (the
loader entry is never written), and a bundle with only the loader entry
reports `SCRIPTS_NOT_EXTRACTED` and leaves the file system untouched. -/
theorem extractScripts_writes_nonloader
    (bundleFile scriptFolder : String) (fs : FS) (m : Marshalled) (N : Nat)
    (hread : fs.readFile bundleFile = some (FileData.bin m))
    (_hloader : ((readBundleData m).filter
        (fun e => isLoaderScript e.«section»)).length = 1)
    (hN : ((readBundleData m).filter
        (fun e => !isLoaderScript e.«section»)).length = N) :
    (0 < N → ∃ fsO, extractScripts bundleFile scriptFolder fs =
        (fsO, Except.ok SCRIPTS_EXTRACTED) ∧
      fsO.written = fs.written ++
        (((readBundleData m).enum.filter
            (fun q => !isLoaderScript q.2.«section»)).map
          (fun q => pathJoin scriptFolder (formatScriptName q.2.name q.1))) ∧
      ((((readBundleData m).enum.filter
          (fun q => !isLoaderScript q.2.«section»)).map
        (fun q => pathJoin scriptFolder (formatScriptName q.2.name q.1))).length = N)) ∧
    (N = 0 → extractScripts bundleFile scriptFolder fs =
      (fs, Except.ok SCRIPTS_NOT_EXTRACTED)) := by
  constructor
  · intro hpos
    have hvalid : checkValidExtraction (readBundleData m) = true :=
      (checkValidExtraction_iff_filter _).mpr (hN ▸ hpos)
    have hrun : extractScripts bundleFile scriptFolder fs =
        (extractLoop scriptFolder (readBundleData m) 0
          (createScriptFolder scriptFolder fs), Except.ok SCRIPTS_EXTRACTED) := by
      simp only [extractScripts, readBundleFile, hread, hvalid, if_true]
    refine ⟨_, hrun, ?_, ?_⟩
    · rw [extractLoop_written, written_createScriptFolder]
      rfl
    · rw [List.length_map, List.enum]
      rw [enumFrom_filter_length (fun e => !isLoaderScript e.«section»)
        (readBundleData m) 0]
      exact hN
  · intro hzero
    have hvalid : checkValidExtraction (readBundleData m) = false := by
      cases hc : checkValidExtraction (readBundleData m)
      · rfl
      · have := (checkValidExtraction_iff_filter _).mp hc
        omega
    simp only [extractScripts, readBundleFile, hread, hvalid, Bool.false_eq_true,
      if_false]

/-- Witness for `extractScripts_writes_nonloader` on a concrete bundle
with the loader entry and one plain script. -/
theorem extractScripts_writes_nonloader_witness :
    ∃ fsO, extractScripts "Data.rvdata2" "Scripts"
        ⟨[("Data.rvdata2", FileData.bin (marshalDump
          [⟨LOADER_SCRIPT_SECTION, "RGSS Script Editor Loader", deflateSync "x"⟩,
            ⟨5, "Main", deflateSync "puts 1"⟩]))], [], []⟩ =
      (fsO, Except.ok SCRIPTS_EXTRACTED) := by
  obtain ⟨fsO, hrun, -, -⟩ :=
    (extractScripts_writes_nonloader "Data.rvdata2" "Scripts"
      ⟨[("Data.rvdata2", FileData.bin (marshalDump
        [⟨LOADER_SCRIPT_SECTION, "RGSS Script Editor Loader", deflateSync "x"⟩,
          ⟨5, "Main", deflateSync "puts 1"⟩]))], [], []⟩
      (marshalDump
        [⟨LOADER_SCRIPT_SECTION, "RGSS Script Editor Loader", deflateSync "x"⟩,
          ⟨5, "Main", deflateSync "puts 1"⟩]) 1
      (by decide) (by decide) (by decide)).1 (by decide)
  exact ⟨fsO, hrun⟩

theorem mem_enumFrom_spec :
    ∀ (l : List ScriptEntry) (i : Nat) (q : Nat × ScriptEntry),
      q ∈ List.enumFrom i l →
        i ≤ q.1 ∧ q.1 < i + l.length ∧ l.getD (q.1 - i) default = q.2 := by
  intro l
  induction l with
  | nil => intro i q h; cases h
  | cons e rest ih =>
    intro i q h
    rw [List.enumFrom] at h
    rcases List.mem_cons.mp h with h | h
    · subst h
      refine ⟨Nat.le_refl i, by simp, ?_⟩
      simp
    · obtain ⟨h1, h2, h3⟩ := ih (i + 1) q h
      refine ⟨by omega, by simp at h2 ⊢; omega, ?_⟩
      have hsub : q.1 - i = (q.1 - (i + 1)) + 1 := by omega
      rw [hsub]
      simpa [List.getD_cons_succ] using h3

theorem filter_fst_map (p : Nat → Bool) :
    ∀ l : List (Nat × ScriptEntry),
      (l.filter (fun q => p q.1)).map (fun q => q.1) =
        (l.map (fun q => q.1)).filter p := by
  intro l
  induction l with
  | nil => rfl
  | cons q t ih =>
    by_cases h : p q.1 = true
    · simp [List.filter_cons, h, ih]
    · have h2 : p q.1 = false := by
        cases hh : p q.1
        · rfl
        · exact absurd hh h
      simp [List.filter_cons, h2, ih]

theorem range_filter_ne_length (M k : Nat) (h : k < M) :
    ((List.range M).filter (fun j => j ≠ k)).length = M - 1 := by
  have h1 := List.length_eq_length_filter_add (l := List.range M)
    (fun j => decide (j ≠ k))
  have h2 : ((List.range M).filter (fun x => !decide (x ≠ k))).length = 1 := by
    have heq : ((List.range M).filter (fun x => !decide (x ≠ k))) = [k] := by
      have hr : ∀ n, ((List.range n).filter (fun x => !decide (x ≠ k))) =
          if k < n then [k] else [] := by
        intro n
        induction n with
        | zero => rfl
        | succ n ih =>
          rw [List.range_succ, List.filter_append, ih]
          by_cases hk : k < n
          · have hne : n ≠ k := by omega
            have hk1 : k < n + 1 := by omega
            simp [hk, hk1, List.filter_cons, hne]
          · by_cases he : k = n
            · subst he
              have hk1 : k < k + 1 := by omega
              simp [hk, hk1, List.filter_cons]
            · have hlt : ¬k < n + 1 := by omega
              have hne : n ≠ k := fun hh => he hh.symm
              simp [hk, hlt, List.filter_cons, hne]
      rw [hr M, if_pos h]
    rw [heq]
    rfl
  rw [List.length_range, h2] at h1
  omega

/-- C10: extraction names each written file by the entry's position in
the full bundle (loader included); for a bundle of `M` entries whose
loader sits at position `k`, the write targets are indexed by
`{0, ..., M-1}` minus `{k}` (the loader's slot leaves a numbering gap
of `M - 1` files, not renumbered contiguously). -/
theorem extractScripts_index_gap
    (bundleFile scriptFolder : String) (fs : FS) (m : Marshalled) (M k : Nat)
    (hread : fs.readFile bundleFile = some (FileData.bin m))
    (hM : (readBundleData m).length = M)
    (hk : k < M) (hM2 : 2 ≤ M)
    (hload : ∀ j, j < M →
      (isLoaderScript ((readBundleData m).getD j default).«section» = true ↔
        j = k)) :
    ∃ fsO, extractScripts bundleFile scriptFolder fs =
        (fsO, Except.ok SCRIPTS_EXTRACTED) ∧
      fsO.written = fs.written ++
        (((List.enumFrom 0 (readBundleData m)).filter
            (fun q => q.1 ≠ k)).map
          (fun q => pathJoin scriptFolder (formatScriptName q.2.name q.1))) ∧
      ((List.enumFrom 0 (readBundleData m)).filter
          (fun q => q.1 ≠ k)).map (fun q => q.1) =
        (List.range M).filter (fun j => j ≠ k) ∧
      ((List.range M).filter (fun j => j ≠ k)).length = M - 1 := by
  have hcong : ∀ q ∈ List.enumFrom 0 (readBundleData m),
      (!isLoaderScript q.2.«section») = decide (q.1 ≠ k) := by
    intro q hq
    obtain ⟨-, h2, h3⟩ := mem_enumFrom_spec (readBundleData m) 0 q hq
    rw [Nat.zero_add] at h2
    rw [Nat.sub_zero] at h3
    rw [hM] at h2
    by_cases hqk : q.1 = k
    · have : isLoaderScript q.2.«section» = true := by
        rw [← h3]
        exact (hload q.1 h2).mpr hqk
      simp [this, hqk]
    · have : isLoaderScript q.2.«section» = false := by
        cases hb : isLoaderScript q.2.«section»
        · rfl
        · rw [← h3] at hb
          exact absurd ((hload q.1 h2).mp hb) hqk
      simp [this, hqk]
  have hfilter : (List.enumFrom 0 (readBundleData m)).filter
        (fun q => !isLoaderScript q.2.«section») =
      (List.enumFrom 0 (readBundleData m)).filter (fun q => decide (q.1 ≠ k)) :=
    List.filter_congr hcong
  have hj0 : ∃ e ∈ readBundleData m, isLoaderScript e.«section» = false := by
    refine ⟨(readBundleData m).getD (if k = 0 then 1 else 0) default, ?_, ?_⟩
    · have hlt : (if k = 0 then 1 else 0) < (readBundleData m).length := by
        by_cases h0 : k = 0 <;> simp [h0] <;> omega
      rw [List.getD_eq_getElem _ _ hlt]
      exact List.getElem_mem hlt
    · have hlt : (if k = 0 then 1 else 0) < M := by
        by_cases h0 : k = 0 <;> simp [h0] <;> omega
      have hne : (if k = 0 then 1 else 0) ≠ k := by
        by_cases h0 : k = 0 <;> simp [h0]
        omega
      cases hb : isLoaderScript
          ((readBundleData m).getD (if k = 0 then 1 else 0) default).«section»
      · rfl
      · exact absurd ((hload _ hlt).mp hb) hne
  have hvalid : checkValidExtraction (readBundleData m) = true := by
    rw [checkValidExtraction_eq_any, List.any_eq_true]
    obtain ⟨e, he, hb⟩ := hj0
    exact ⟨e, he, by simp [hb]⟩
  have hrun : extractScripts bundleFile scriptFolder fs =
      (extractLoop scriptFolder (readBundleData m) 0
        (createScriptFolder scriptFolder fs), Except.ok SCRIPTS_EXTRACTED) := by
    simp only [extractScripts, readBundleFile, hread, hvalid, if_true]
  refine ⟨_, hrun, ?_, ?_, range_filter_ne_length M k hk⟩
  · rw [extractLoop_written, written_createScriptFolder, hfilter]
  · have hcomm := filter_fst_map (fun j => decide (j ≠ k))
      (List.enumFrom 0 (readBundleData m))
    have hfst : (List.enumFrom 0 (readBundleData m)).map (fun q => q.1) =
        List.range M := by
      rw [← hM]
      exact List.enum_map_fst (readBundleData m)
    exact hcomm.trans (by rw [hfst])

/-- Witness for `extractScripts_index_gap` on a two-entry bundle whose
loader entry sits at position 1. -/
theorem extractScripts_index_gap_witness :
    ∃ fsO, extractScripts "Data.rvdata2" "Scripts"
        ⟨[("Data.rvdata2", FileData.bin (marshalDump
          [⟨5, "Main", deflateSync "puts 1"⟩,
            ⟨LOADER_SCRIPT_SECTION, "RGSS Script Editor Loader",
              deflateSync "x"⟩]))], [], []⟩ =
      (fsO, Except.ok SCRIPTS_EXTRACTED) := by
  obtain ⟨fsO, hrun, -, -, -⟩ :=
    extractScripts_index_gap "Data.rvdata2" "Scripts"
      ⟨[("Data.rvdata2", FileData.bin (marshalDump
        [⟨5, "Main", deflateSync "puts 1"⟩,
          ⟨LOADER_SCRIPT_SECTION, "RGSS Script Editor Loader",
            deflateSync "x"⟩]))], [], []⟩
      (marshalDump
        [⟨5, "Main", deflateSync "puts 1"⟩,
          ⟨LOADER_SCRIPT_SECTION, "RGSS Script Editor Loader",
            deflateSync "x"⟩]) 2 1
      (by decide) (by decide) (by decide) (by decide) (by decide)
  exact ⟨fsO, hrun⟩

theorem startsWithList_refl : ∀ p : List Char, startsWithList p p = true := by
  intro p
  induction p with
  | nil => rfl
  | cons c t ih => simp [startsWithList, ih]

theorem endsWithList_append (s pat : List Char) :
    endsWithList (s ++ pat) pat = true := by
  rw [endsWithList, List.length_append]
  have hlen : s.length + pat.length - pat.length = s.length := by omega
  rw [hlen, List.drop_left]
  simp [startsWithList_refl, Nat.le_add_left]

theorem digit_not_invalid (c : Char) (h : isDigitJS c = true) :
    INVALID_CHARACTERS.contains c = false := by
  cases hc : INVALID_CHARACTERS.contains c
  · rfl
  · exfalso
    simp [INVALID_CHARACTERS] at hc
    rcases hc with rfl | rfl | rfl | rfl | rfl | rfl | rfl | rfl | rfl | rfl | rfl <;>
      exact absurd h (by decide)

theorem padStart_digits (i : Nat) :
    ∀ c ∈ (padStart (natToString i) 4 '0').toList, isDigitJS c = true := by
  intro c hc
  rw [padStart, natToString, string_toList_append, string_toList_mk,
    string_toList_mk] at hc
  rcases List.mem_append.mp hc with hc | hc
  · rw [List.eq_of_mem_replicate hc]
    decide
  · exact natDigits_all_digit i c hc

theorem jsTrimList_subset (l : List Char) : ∀ c ∈ jsTrimList l, c ∈ l := by
  intro c hc
  rw [jsTrimList] at hc
  rw [List.mem_reverse] at hc
  have h1 := (List.dropWhile_sublist (p := isWsJS)
    (l := (l.dropWhile isWsJS).reverse)).subset hc
  rw [List.mem_reverse] at h1
  exact (List.dropWhile_sublist (p := isWsJS) (l := l)).subset h1

theorem core_not_invalid (name : String) :
    ∀ c ∈ (jsTrim (stripInvalid name)).toList,
      INVALID_CHARACTERS.contains c = false := by
  intro c hc
  rw [jsTrim, string_toList_mk] at hc
  have h1 := jsTrimList_subset _ c hc
  rw [stripInvalid, string_toList_mk] at h1
  have h2 := (List.mem_filter.mp h1).2
  cases hb : INVALID_CHARACTERS.contains c
  · rfl
  · rw [hb] at h2
    cases h2

theorem containsList_append_cases (h : Char) (t : List Char) :
    ∀ A B : List Char, containsList (A ++ B) (h :: t) = true →
      h ∈ A ∨ containsList B (h :: t) = true := by
  intro A
  induction A with
  | nil =>
    intro B hc
    right
    simpa using hc
  | cons a A2 ih =>
    intro B hc
    rw [List.cons_append, containsList] at hc
    rcases Bool.or_eq_true_iff.mp hc with hc | hc
    · left
      rw [startsWithList] at hc
      have := (Bool.and_eq_true_iff.mp hc).1
      simp at this
      rw [this]
      exact List.mem_cons_self h A2
    · rcases ih B hc with hm | hm
      · exact Or.inl (List.mem_cons_of_mem a hm)
      · exact Or.inr hm

theorem includes_rb_joined (i : Nat) (core : String)
    (hcore : jsIncludes core ".rb" = false) :
    jsIncludes (padStart (natToString i) 4 '0' ++ " - " ++ core) ".rb" = false := by
  cases hj : jsIncludes (padStart (natToString i) 4 '0' ++ " - " ++ core) ".rb"
  · rfl
  · exfalso
    rw [jsIncludes] at hj
    have hsplit : (padStart (natToString i) 4 '0' ++ " - " ++ core).toList =
        (padStart (natToString i) 4 '0' ++ " - ").toList ++ core.toList :=
      string_toList_append _ _
    have hpat : (".rb" : String).toList = '.' :: ['r', 'b'] := rfl
    rw [hsplit, hpat] at hj
    rcases containsList_append_cases '.' ['r', 'b'] _ _ hj with hm | hm
    · rw [string_toList_append] at hm
      rcases List.mem_append.mp hm with hm | hm
      · exact absurd (padStart_digits i '.' hm) (by decide)
      · have hsep : ((" - " : String)).toList = [' ', '-', ' '] := rfl
        rw [hsep] at hm
        exact absurd hm (by decide)
    · rw [jsIncludes, hpat] at hcore
      rw [hcore] at hm
      cases hm

/-- C7 counterexample: the display name `a.rbx` already contains `.rb`
as a substring, so no extension is appended and the formatted name does
not end with `.rb`, contradicting the claim as stated. -/
theorem formatScriptName_endsWith_counterexample :
    formatScriptName "a.rbx" 1 = "0001 - a.rbx" ∧
    jsEndsWith (formatScriptName "a.rbx" 1) ".rb" = false :=
  ⟨by decide, by decide⟩

theorem formatScriptName_chars (name : String) (i : Nat) :
    ∀ c ∈ (formatScriptName name i).toList,
      INVALID_CHARACTERS.contains c = false := by
  have hfmt : formatScriptName name i =
      if !jsIncludes (padStart (natToString i) 4 '0' ++ " - " ++
          jsTrim (stripInvalid name)) ".rb" then
        padStart (natToString i) 4 '0' ++ " - " ++
          jsTrim (stripInvalid name) ++ ".rb"
      else
        padStart (natToString i) 4 '0' ++ " - " ++ jsTrim (stripInvalid name) :=
    rfl
  intro c hc
  rw [hfmt] at hc
  have hmem : c ∈ (padStart (natToString i) 4 '0').toList ∨
      c ∈ ((" - " : String)).toList ∨
      c ∈ (jsTrim (stripInvalid name)).toList ∨
      c ∈ ((".rb" : String)).toList := by
    cases hb : jsIncludes (padStart (natToString i) 4 '0' ++ " - " ++
        jsTrim (stripInvalid name)) ".rb"
    · rw [hb] at hc
      simp only [Bool.not_false, if_true] at hc
      rw [string_toList_append, string_toList_append,
        string_toList_append] at hc
      rcases List.mem_append.mp hc with hc | hc
      · rcases List.mem_append.mp hc with hc | hc
        · rcases List.mem_append.mp hc with hc | hc
          · exact Or.inl hc
          · exact Or.inr (Or.inl hc)
        · exact Or.inr (Or.inr (Or.inl hc))
      · exact Or.inr (Or.inr (Or.inr hc))
    · rw [hb] at hc
      simp only [Bool.not_true, Bool.false_eq_true, if_false] at hc
      rw [string_toList_append, string_toList_append] at hc
      rcases List.mem_append.mp hc with hc | hc
      · rcases List.mem_append.mp hc with hc | hc
        · exact Or.inl hc
        · exact Or.inr (Or.inl hc)
      · exact Or.inr (Or.inr (Or.inl hc))
  rcases hmem with hm | hm | hm | hm
  · exact digit_not_invalid c (padStart_digits i c hm)
  · have hsep : ((" - " : String)).toList = [' ', '-', ' '] := rfl
    rw [hsep] at hm
    simp only [List.mem_cons, List.not_mem_nil, or_false] at hm
    rcases hm with rfl | rfl | rfl <;> decide
  · exact core_not_invalid name c hm
  · have hext : ((".rb" : String)).toList = ['.', 'r', 'b'] := rfl
    rw [hext] at hm
    simp only [List.mem_cons, List.not_mem_nil, or_false] at hm
    rcases hm with rfl | rfl | rfl <;> decide

theorem formatScriptName_append_rb (name : String) (i : Nat)
    (h : jsIncludes (jsTrim (stripInvalid name)) ".rb" = false) :
    formatScriptName name i =
      padStart (natToString i) 4 '0' ++ " - " ++
        jsTrim (stripInvalid name) ++ ".rb" := by
  have hj := includes_rb_joined i (jsTrim (stripInvalid name)) h
  rw [formatScriptName]
  rw [show jsIncludes (padStart (natToString i) 4 '0' ++ " - " ++
      jsTrim (stripInvalid name)) ".rb" = false from hj]
  rfl

/-- C7 amended: the formatted name never contains an invalid character
and always has the shape `{4-digit-padded index} - {trimmed stripped
name}`; the `.rb` extension is appended exactly when `'.rb'` does not
already occur in that joined string, and in that case (in particular
whenever the trimmed stripped name has no `'.rb'` substring) the output
ends with `.rb`.  When the name already contains `'.rb'` anywhere,
nothing is appended and the output may fail to end with `.rb`. -/
theorem formatScriptName_spec (name : String) (i : Nat) :
    (∀ c ∈ (formatScriptName name i).toList,
      INVALID_CHARACTERS.contains c = false) ∧
    (jsIncludes (jsTrim (stripInvalid name)) ".rb" = false →
      formatScriptName name i =
        padStart (natToString i) 4 '0' ++ " - " ++
          jsTrim (stripInvalid name) ++ ".rb" ∧
      jsEndsWith (formatScriptName name i) ".rb" = true) ∧
    (jsIncludes (padStart (natToString i) 4 '0' ++ " - " ++
        jsTrim (stripInvalid name)) ".rb" = true →
      formatScriptName name i =
        padStart (natToString i) 4 '0' ++ " - " ++ jsTrim (stripInvalid name)) := by
  refine ⟨formatScriptName_chars name i, ?_, ?_⟩
  · intro h
    have heq := formatScriptName_append_rb name i h
    refine ⟨heq, ?_⟩
    rw [heq, jsEndsWith, string_toList_append]
    exact endsWithList_append _ _
  · intro h
    rw [formatScriptName, h]
    rfl

/-- Witness for `formatScriptName_spec` at the name `Main` and index 1. -/
theorem formatScriptName_spec_witness :
    jsIncludes (jsTrim (stripInvalid "Main")) ".rb" = false ∧
    (formatScriptName "Main" 1 =
      padStart (natToString 1) 4 '0' ++ " - " ++
        jsTrim (stripInvalid "Main") ++ ".rb" ∧
    jsEndsWith (formatScriptName "Main" 1) ".rb" = true) :=
  ⟨by decide, (formatScriptName_spec "Main" 1).2.1 (by decide)⟩

theorem takeWhile_all {p : Char → Bool} :
    ∀ l : List Char, (∀ c ∈ l, p c = true) → l.takeWhile p = l := by
  intro l
  induction l with
  | nil => intro _; rfl
  | cons c t ih =>
    intro h
    rw [List.takeWhile_cons, h c (List.mem_cons_self c t),
      ih (fun x hx => h x (List.mem_cons_of_mem c hx)), if_pos rfl]

theorem basename_eq_self (s : String) (h : ∀ c ∈ s.toList, ¬c = '/') :
    basename s = s := by
  rw [basename, takeWhile_all]
  · rw [List.reverse_reverse]
    rfl
  · intro c hc
    rw [List.mem_reverse] at hc
    simp [h c hc]

theorem runLength_append_all {p : Char → Bool} :
    ∀ (A : List Char) (b : Char) (t : List Char),
      (∀ c ∈ A, p c = true) → p b = false →
      runLength p (A ++ b :: t) = A.length := by
  intro A
  induction A with
  | nil =>
    intro b t _ hb
    rw [List.nil_append, runLength, if_neg]
    · rfl
    · rw [hb]; exact Bool.false_ne_true
  | cons a A2 ih =>
    intro b t hA hb
    rw [List.cons_append, runLength,
      if_pos (hA a (List.mem_cons_self a A2)),
      ih b t (fun x hx => hA x (List.mem_cons_of_mem a hx)) hb]
    rfl

theorem matchTail_append (body : List Char)
    (hdot : ∀ c ∈ body, isDot c = true) :
    matchTail (body ++ ['.', 'r', 'b']) = some body := by
  rw [matchTail]
  have hlen : (body ++ ['.', 'r', 'b']).length = body.length + 3 := by
    rw [List.length_append]
    rfl
  rw [if_pos (by rw [hlen]; omega)]
  rw [hlen]
  have hsub : body.length + 3 - 3 = body.length := by omega
  rw [hsub, List.take_left, List.drop_left]
  rw [if_pos]
  rw [Bool.and_eq_true]
  constructor
  · rw [List.all_eq_true]
    exact hdot
  · decide

theorem matchAfterDash_of_head (c : Char) (rest : List Char) (cap : List Char)
    (h : matchTail (c :: rest) = some cap) :
    matchAfterDash (c :: rest) = some cap := by
  rw [matchAfterDash, h]

theorem searchDeformat_of_matchAttempt :
    ∀ (u : List Char) (cap : List Char),
      matchAttempt u = some cap → searchDeformat u = some cap := by
  intro u cap h
  cases u with
  | nil => rw [searchDeformat]; exact h
  | cons c rest => rw [searchDeformat, h]

theorem matchAttempt_of_group (u : List Char) (cap : List Char)
    (h : tryDigitsGroup u (runLength isDigitJS u) = some cap) :
    matchAttempt u = some cap := by
  rw [matchAttempt, h]
  rfl

theorem searchDeformat_formatted (PL CL : List Char)
    (hP : ∀ c ∈ PL, isDigitJS c = true) (hPne : PL ≠ [])
    (hC : ∀ c ∈ CL, isDot c = true) :
    searchDeformat (PL ++ (' ' :: '-' :: ' ' :: (CL ++ ['.', 'r', 'b']))) =
      some (' ' :: CL) := by
  obtain ⟨p0, PT, rfl⟩ : ∃ p0 PT, PL = p0 :: PT := by
    cases PL with
    | nil => exact absurd rfl hPne
    | cons p0 PT => exact ⟨p0, PT, rfl⟩
  apply searchDeformat_of_matchAttempt
  apply matchAttempt_of_group
  have hrun : runLength isDigitJS
      ((p0 :: PT) ++ (' ' :: '-' :: ' ' :: (CL ++ ['.', 'r', 'b']))) =
      PT.length + 1 := by
    rw [runLength_append_all (p0 :: PT) ' ' _ hP (by decide)]
    rfl
  rw [hrun, tryDigitsGroup]
  have hdrop : ((p0 :: PT) ++ (' ' :: '-' :: ' ' :: (CL ++ ['.', 'r', 'b']))).drop
      (PT.length + 1) = ' ' :: '-' :: ' ' :: (CL ++ ['.', 'r', 'b']) := by
    have hl : (p0 :: PT).length = PT.length + 1 := rfl
    rw [← hl, List.drop_left]
  rw [hdrop]
  have hws : runLength isWsJS (' ' :: '-' :: ' ' :: (CL ++ ['.', 'r', 'b'])) = 1 := by
    rw [runLength, if_pos (by decide), runLength, if_neg (by decide)]
  have hmt : matchTail ((' ' :: CL) ++ ['.', 'r', 'b']) = some (' ' :: CL) := by
    apply matchTail_append
    intro c hc
    rcases List.mem_cons.mp hc with rfl | hc
    · decide
    · exact hC c hc
  have hmad : matchAfterDash (' ' :: (CL ++ ['.', 'r', 'b'])) = some (' ' :: CL) := by
    apply matchAfterDash_of_head
    rw [← List.cons_append]
    exact hmt
  have hts : trySpacesDash (' ' :: '-' :: ' ' :: (CL ++ ['.', 'r', 'b'])) 1 =
      some (' ' :: CL) := by
    rw [trySpacesDash]
    rw [show List.drop (0 + 1) (' ' :: '-' :: ' ' :: (CL ++ ['.', 'r', 'b'])) =
      '-' :: ' ' :: (CL ++ ['.', 'r', 'b']) from rfl]
    show (matchAfterDash (' ' :: (CL ++ ['.', 'r', 'b']))).orElse _ = some (' ' :: CL)
    rw [hmad]
    rfl
  rw [hws, hts]
  rfl

theorem natDigits_ne_nil (n : Nat) : natDigits n ≠ [] := by
  by_cases h : n < 10
  · rw [natDigits_single h]
    exact List.cons_ne_nil _ _
  · rw [natDigits_split h]
    simp

theorem string_eq_of_toList {a b : String} (h : a.toList = b.toList) : a = b := by
  cases a
  cases b
  simp only [String.toList] at h
  rw [h]

theorem deformatScriptName_of_some (s : String) (cap : List Char)
    (h : searchDeformat (basename s).toList = some cap) :
    deformatScriptName s = String.mk cap := by
  simp only [deformatScriptName, h]

theorem deformatScriptName_of_none (s : String)
    (h : searchDeformat (basename s).toList = none) :
    deformatScriptName s = basename s := by
  simp only [deformatScriptName, h]

/-- C8 counterexample: `deformat(format("Main", 1))` keeps the space
that follows the dash separator (the regex's whitespace class sits only
before the dash), so the round trip yields `" Main"`, not the trimmed
core name `"Main"`. -/
theorem deformat_format_counterexample :
    deformatScriptName (formatScriptName "Main" 1) = " Main" ∧
    jsTrim (stripInvalid "Main") = "Main" ∧
    (" Main" : String) ≠ "Main" :=
  ⟨by decide, by decide, by decide⟩

/-- C8 amended: when the trimmed stripped core name contains no `'.rb'`
substring and no line-terminator character, the round trip returns the
core name with one leading space (the space after the `" - "` separator
survives, since the regex consumes whitespace only before the dash);
and a base name the regex does not match is returned unchanged, so
deformatting never fails. -/
theorem deformat_format_roundtrip (name : String) (i : Nat) :
    (jsIncludes (jsTrim (stripInvalid name)) ".rb" = false →
      (∀ c ∈ (jsTrim (stripInvalid name)).toList, isDot c = true) →
      deformatScriptName (formatScriptName name i) =
        " " ++ jsTrim (stripInvalid name)) ∧
    (∀ s : String, searchDeformat (basename s).toList = none →
      deformatScriptName s = basename s) := by
  constructor
  · intro hcore hdot
    have heq := formatScriptName_append_rb name i hcore
    have hnoslash : ∀ c ∈ (formatScriptName name i).toList, ¬c = '/' := by
      intro c hc hcs
      have hinv := formatScriptName_chars name i c hc
      rw [hcs] at hinv
      exact absurd hinv (by decide)
    have hbase : basename (formatScriptName name i) = formatScriptName name i :=
      basename_eq_self _ hnoslash
    have hlist : (padStart (natToString i) 4 '0' ++ " - " ++
        jsTrim (stripInvalid name) ++ ".rb").toList =
        (padStart (natToString i) 4 '0').toList ++
          (' ' :: '-' :: ' ' ::
            ((jsTrim (stripInvalid name)).toList ++ ['.', 'r', 'b'])) := by
      rw [string_toList_append, string_toList_append, string_toList_append]
      rw [List.append_assoc, List.append_assoc]
      rfl
    have hPne : (padStart (natToString i) 4 '0').toList ≠ [] := by
      rw [padStart, natToString, string_toList_append, string_toList_mk,
        string_toList_mk]
      intro h
      rcases List.append_eq_nil.mp h with ⟨-, h2⟩
      exact natDigits_ne_nil i h2
    have hsome : searchDeformat (basename (formatScriptName name i)).toList =
        some (' ' :: (jsTrim (stripInvalid name)).toList) := by
      rw [hbase, heq, hlist]
      exact searchDeformat_formatted _ _ (padStart_digits i) hPne hdot
    rw [deformatScriptName_of_some _ _ hsome]
    apply string_eq_of_toList
    rw [string_toList_mk, string_toList_append]
    rfl
  · intro s h
    exact deformatScriptName_of_none s h

/-- Witness for `deformat_format_roundtrip` at the name `Main` and
index 1, and at the unmatched file name `notes.txt`. -/
theorem deformat_format_roundtrip_witness :
    jsIncludes (jsTrim (stripInvalid "Main")) ".rb" = false ∧
    deformatScriptName (formatScriptName "Main" 1) =
      " " ++ jsTrim (stripInvalid "Main") ∧
    searchDeformat (basename "notes.txt").toList = none ∧
    deformatScriptName "notes.txt" = basename "notes.txt" :=
  ⟨by decide,
    (deformat_format_roundtrip "Main" 1).1 (by decide) (by decide),
    by decide,
    (deformat_format_roundtrip "Main" 1).2 "notes.txt" (by decide)⟩
